import Mathlib

/-!
Verification of the boundary layer in `src/wasm_interface.c`: the C entry
point `pawncl_compile` and the TypeScript wrapper around it
(`initCompiler`, `addIncludeFile`, `compile`, `parseCompilerOutput`,
`getCompiledAMX`, `cleanup`).  Each definition below is a shallow
embedding of the corresponding source function; the theorems at the end
settle the specification claims against these definitions.
-/

namespace PawnWasm

/-! ## Diagnostic parser (`parseCompilerOutput`) -/

/-- Structured result record (interface `CompilationResult` in the source). -/
structure CompilationResult where
  success : Bool
  output : String
  errors : List String
  warnings : List String
  amxSize : Option Nat
deriving DecidableEq, Repr

/-- Split a character list at every occurrence of a separator character,
keeping empty pieces: the behaviour of JavaScript `s.split(sep)` and of
the path splitting `filename.split('/')`. -/
def splitOnChar (sep : Char) : List Char → List (List Char)
  | [] => [[]]
  | c :: rest =>
    if c = sep then [] :: splitOnChar sep rest
    else
      match splitOnChar sep rest with
      | [] => [[c]]
      | l :: ls => (c :: l) :: ls

/-- String-level wrapper of `splitOnChar`. -/
def jsSplit (s : String) (sep : Char) : List String :=
  (splitOnChar sep s.toList).map String.mk

/-- Join a list of strings with a separator (used to model
`Array.prototype.join` and path re-joining). -/
def joinSep (sep : String) : List String → String
  | [] => ""
  | [p] => p
  | p :: rest => p ++ sep ++ joinSep sep rest

/-- Substring test on character lists; `containsSub pat s` models
JavaScript `s.includes(pat)`. -/
def containsSub (pat : List Char) : List Char → Bool
  | [] => pat.isEmpty
  | c :: tail => pat.isPrefixOf (c :: tail) || containsSub pat tail

/-- Model of JavaScript `s.includes(pat)`. -/
def jsIncludes (s pat : String) : Bool :=
  containsSub pat.toList s.toList

/-- Whitespace characters removed by JavaScript `String.prototype.trim`
(the ASCII part of the JS whitespace class). -/
def isJsSpace (c : Char) : Bool :=
  c == ' ' || c == '\t' || c == '\n' || c == '\r' || c.toNat == 11 || c.toNat == 12

/-- Model of JavaScript `line.trim()`. -/
def jsTrim (s : String) : String :=
  String.mk (((s.toList.dropWhile isJsSpace).reverse.dropWhile isJsSpace).reverse)

/-- Longest leading run of decimal digits of a character list, paired with
the remaining characters (the behaviour of a greedy `\d+`). -/
def digitRun : List Char → List Char × List Char
  | [] => ([], [])
  | c :: rest =>
    if c.isDigit then
      ((digitRun rest).1.cons c, (digitRun rest).2)
    else ([], c :: rest)

/-- Decimal value of a digit run, as computed by `parseInt(digits, 10)`. -/
def digitsToNat (ds : List Char) : Nat :=
  ds.foldl (fun n c => 10 * n + (c.toNat - 48)) 0

/-- Attempt to read `(\d+) bytes` starting at the given position (the tail
of the regular expression `AMX file size: (\d+) bytes`). -/
def sizeTailMatch (s : List Char) : Option Nat :=
  if (digitRun s).1.isEmpty then none
  else if " bytes".toList.isPrefixOf (digitRun s).2 then some (digitsToNat (digitRun s).1)
  else none

/-- Leftmost match of the regular expression `AMX file size: (\d+) bytes`
against a line, modelling `line.match(/AMX file size: (\d+) bytes/)`
followed by `parseInt(match[1], 10)`. -/
def findAmxSize : List Char → Option Nat
  | [] => none
  | c :: tail =>
    if "AMX file size: ".toList.isPrefixOf (c :: tail) then
      match sizeTailMatch ((c :: tail).drop "AMX file size: ".toList.length) with
      | some n => some n
      | none => findAmxSize tail
    else findAmxSize tail

/-- Mutable accumulator of the `for (const line of lines)` loop in
`parseCompilerOutput`. -/
structure ParseAcc where
  success : Bool
  amxSize : Option Nat
  errors : List String
  warnings : List String
deriving DecidableEq, Repr

/-- One iteration of the line loop in `parseCompilerOutput`: the success
marker check (with the artifact-size pattern), then the error-line check,
then the warning-line check. -/
def parseLine (acc : ParseAcc) (line : String) : ParseAcc :=
  let acc1 :=
    if jsIncludes line "Compilation successful" then
      match findAmxSize line.toList with
      | some n => { acc with success := true, amxSize := some n }
      | none => { acc with success := true }
    else acc
  let acc2 :=
    if jsIncludes line "error" && jsIncludes line ":" then
      { acc1 with errors := acc1.errors ++ [jsTrim line] }
    else acc1
  if jsIncludes line "warning" && jsIncludes line ":" then
    { acc2 with warnings := acc2.warnings ++ [jsTrim line] }
  else acc2

/-- Final state of the line loop of `parseCompilerOutput` over the raw
output split on newlines. -/
def parseAccOf (output : String) : ParseAcc :=
  (jsSplit output '\n').foldl parseLine ⟨false, none, [], []⟩

/-- Model of `parseCompilerOutput`: split the raw output on newlines, run
the line loop, and package the accumulator together with the raw output. -/
def parseCompilerOutput (output : String) : CompilationResult :=
  ⟨(parseAccOf output).success, output, (parseAccOf output).errors,
   (parseAccOf output).warnings, (parseAccOf output).amxSize⟩

/-! ## Option marshaler (flag construction inside `compile`) -/

/-- Structured compile options (interface `CompilerOptions` in the source).
A `none` field models an `undefined` property. -/
structure CompilerOptions where
  optimizationLevel : Option Nat
  debugLevel : Option Nat
  additionalFlags : Option (List String)
deriving DecidableEq, Repr

/-- Model of the `optionsArray` construction in `compile`: optimization
flag if present, debug flag if present, the fixed include flag, then the
additional flags. -/
def buildOptionsArray (options : CompilerOptions) : List String :=
  let arr : List String := []
  let arr := match options.optimizationLevel with
    | some lvl => arr ++ ["-O" ++ toString lvl]
    | none => arr
  let arr := match options.debugLevel with
    | some lvl => arr ++ ["-d" ++ toString lvl]
    | none => arr
  let arr := arr ++ ["-i/include"]
  match options.additionalFlags with
  | some flags => arr ++ flags
  | none => arr

/-- Model of `optionsArray.join(' ')`. -/
def optionsStringOf (options : CompilerOptions) : String :=
  joinSep " " (buildOptionsArray options)

/-- Closed form of the optimization flag part, for stating the marshaling
order property. -/
def optFlag : Option Nat → List String
  | some n => ["-O" ++ toString n]
  | none => []

/-- Closed form of the debug flag part, for stating the marshaling order
property. -/
def dbgFlag : Option Nat → List String
  | some n => ["-d" ++ toString n]
  | none => []

/-! ## Lifecycle manager (`initCompiler`) -/

/-- Program counter of one `initCompiler` caller.  `awaitImport` and
`awaitCreate` are the two suspension points of the source (the
dynamic module load and the `createPawnCompiler` call); `waiting` is a
caller that was pushed onto `readyCallbacks`. -/
inductive PC where
  | idle
  | awaitImport
  | awaitCreate
  | waiting
  | doneReady
  | doneError
deriving DecidableEq, Repr

/-- Global state of the wrapper module plus the program counter of every
caller: the variables `compilerReady`, `compilerModule` (modelled as
null / non-null) and `readyCallbacks` of the source. -/
structure Config where
  compilerReady : Bool
  compilerModule : Bool
  readyCallbacks : List Nat
  pcs : Nat → PC

/-- Update one caller's program counter. -/
def setPC (pcs : Nat → PC) (c : Nat) (p : PC) : Nat → PC :=
  fun x => if x = c then p else pcs x

/-- Scheduler / environment events: a caller invokes `initCompiler`
(running synchronously to its first suspension), a suspended dynamic
module load resolves or rejects, or the module-creation await resolves
(followed atomically by the `FS.mkdir('/include')` attempt, whose outcome
`mkdirOk` the environment chooses) or rejects. -/
inductive Act where
  | call (c : Nat)
  | importDone (c : Nat) (ok : Bool)
  | createDone (c : Nat) (ok : Bool) (mkdirOk : Bool)
deriving DecidableEq, Repr

/-- Single-step semantics of `initCompiler` under cooperative scheduling.
Events that do not match the caller's current position leave the
configuration unchanged. -/
def step (cfg : Config) : Act → Config
  | .call c =>
    if cfg.pcs c ≠ PC.idle then cfg
    else if cfg.compilerReady then { cfg with pcs := setPC cfg.pcs c PC.doneReady }
    else if cfg.compilerModule then
      { cfg with readyCallbacks := cfg.readyCallbacks ++ [c],
                 pcs := setPC cfg.pcs c PC.waiting }
    else { cfg with pcs := setPC cfg.pcs c PC.awaitImport }
  | .importDone c ok =>
    if cfg.pcs c ≠ PC.awaitImport then cfg
    else if ok then { cfg with pcs := setPC cfg.pcs c PC.awaitCreate }
    else { cfg with pcs := setPC cfg.pcs c PC.doneError }
  | .createDone c ok mkdirOk =>
    if cfg.pcs c ≠ PC.awaitCreate then cfg
    else if !ok then { cfg with pcs := setPC cfg.pcs c PC.doneError }
    else if mkdirOk then
      { compilerReady := true, compilerModule := true, readyCallbacks := [],
        pcs := fun x =>
          if x = c then PC.doneReady
          else if cfg.readyCallbacks.contains x then PC.doneReady
          else cfg.pcs x }
    else { cfg with compilerModule := true, pcs := setPC cfg.pcs c PC.doneError }

/-- Initial configuration: `compilerModule = null`, `compilerReady =
false`, empty `readyCallbacks`, no caller started. -/
def initConfig : Config :=
  { compilerReady := false, compilerModule := false, readyCallbacks := [],
    pcs := fun _ => PC.idle }

/-- Run a sequence of scheduler events. -/
def runTrace (cfg : Config) (acts : List Act) : Config :=
  acts.foldl step cfg

/-- Lifecycle states of the specification's data model. -/
inductive ModuleState where
  | Uninitialized
  | Initializing
  | Ready
deriving DecidableEq, Repr

/-- Lifecycle state read off the two wrapper variables: `Ready` when
`compilerReady`, `Initializing` when only `compilerModule` is set,
`Uninitialized` otherwise. -/
def lifecycleState (compilerReady compilerModule : Bool) : ModuleState :=
  if compilerReady then ModuleState.Ready
  else if compilerModule then ModuleState.Initializing
  else ModuleState.Uninitialized

/-- Lifecycle state of a configuration. -/
def stateOf (cfg : Config) : ModuleState :=
  lifecycleState cfg.compilerReady cfg.compilerModule

/-- Scenario: caller 1 loads the module, module creation succeeds but the
`FS.mkdir('/include')` call throws; caller 2 then invokes `initCompiler`. -/
def stuckTrace : List Act :=
  [Act.call 1, Act.importDone 1 true, Act.createDone 1 true false, Act.call 2]

/-- Scenario: caller 1 loads the module and the `FS.mkdir('/include')`
call throws. -/
def mkdirFailTrace : List Act :=
  [Act.call 1, Act.importDone 1 true, Act.createDone 1 true false]

/-- Configurations in which caller 2 sits on the waiter queue while no
initialization is in flight: no resolution event can ever fire again for
the queue, so caller 2 can never be resumed. -/
def Stuck (cfg : Config) : Prop :=
  cfg.compilerModule = true ∧ cfg.pcs 2 = PC.waiting ∧
    ∀ x, cfg.pcs x ≠ PC.awaitImport ∧ cfg.pcs x ≠ PC.awaitCreate

/-! ## Invocation bridge (`compile`) -/

/-- Model of `compile`: the initialization guard throws (`Except.error`)
when `compilerReady` or `compilerModule` is unset; otherwise the boundary
call either returns raw output (parsed into a structured result) or
throws, in which case the failure text is packaged into a
`success = false` result. -/
def compile (compilerReady compilerModule : Bool)
    (boundary : Except String String) : Except String CompilationResult :=
  if !compilerReady || !compilerModule then
    Except.error "Compiler not initialized. Call initCompiler() first."
  else
    match boundary with
    | Except.ok raw => Except.ok (parseCompilerOutput raw)
    | Except.error e =>
      Except.ok { success := false, output := e, errors := [e], warnings := [], amxSize := none }

/-! ## Virtual filesystem (Emscripten `FS` as used by the wrapper) -/

/-- Decidable equality for `Except` results, so that concrete runs of the
fallible operations can be checked by `decide`. -/
instance exceptDecEq {α β : Type} [DecidableEq α] [DecidableEq β] :
    DecidableEq (Except α β)
  | Except.ok a, Except.ok b =>
    if h : a = b then isTrue (by rw [h]) else isFalse (fun hc => h (Except.ok.inj hc))
  | Except.ok _, Except.error _ => isFalse (fun hc => Except.noConfusion hc)
  | Except.error _, Except.ok _ => isFalse (fun hc => Except.noConfusion hc)
  | Except.error e, Except.error f =>
    if h : e = f then isTrue (by rw [h]) else isFalse (fun hc => h (Except.error.inj hc))

/-- Failure codes of the filesystem operations used by the wrapper. -/
inductive FsErr where
  | eexist
  | enoent
  | eisdir
deriving DecidableEq, Repr

/-- Virtual filesystem state: the set of existing directories and the
files with their contents. -/
structure VFS where
  dirs : List String
  files : List (String × String)
deriving DecidableEq, Repr

/-- Parent path of a slash-separated path. -/
def parentOf (p : String) : String :=
  joinSep "/" ((jsSplit p '/').dropLast)

/-- Whether a file exists at the path. -/
def VFS.isFile (v : VFS) (p : String) : Bool :=
  v.files.any (fun e => e.1 == p)

/-- Model of `FS.analyzePath(p).exists`: a directory or file exists at
the path. -/
def VFS.pathExists (v : VFS) (p : String) : Bool :=
  v.dirs.contains p || v.isFile p

/-- Model of `FS.mkdir`: fails with `EEXIST` when something already
exists at the path, with `ENOENT` when the parent directory is missing. -/
def VFS.mkdir (v : VFS) (p : String) : Except FsErr VFS :=
  if v.pathExists p then Except.error FsErr.eexist
  else if v.dirs.contains (parentOf p) then Except.ok { v with dirs := v.dirs ++ [p] }
  else Except.error FsErr.enoent

/-- Model of `FS.unlink`. -/
def VFS.unlink (v : VFS) (p : String) : Except FsErr VFS :=
  if v.dirs.contains p then Except.error FsErr.eisdir
  else if v.isFile p then Except.ok { v with files := v.files.filter (fun e => e.1 != p) }
  else Except.error FsErr.enoent

/-- Model of `FS.writeFile`: replaces any file at the path, fails when a
directory sits at the path or the parent directory is missing. -/
def VFS.writeFile (v : VFS) (p content : String) : Except FsErr VFS :=
  if v.dirs.contains p then Except.error FsErr.eisdir
  else if v.dirs.contains (parentOf p) then
    Except.ok { v with files := v.files.filter (fun e => e.1 != p) ++ [(p, content)] }
  else Except.error FsErr.enoent

/-- Model of `FS.readFile`. -/
def VFS.readFile (v : VFS) (p : String) : Except FsErr String :=
  match v.files.find? (fun e => e.1 == p) with
  | some e => Except.ok e.2
  | none => Except.error (if v.dirs.contains p then FsErr.eisdir else FsErr.enoent)

/-- Directory loop of `addIncludeFile`: for each path component the
current path is extended and `FS.mkdir` attempted; an `EEXIST` failure is
skipped, any other failure is rethrown unless the path turns out to
exist. -/
def ensureDirs : VFS → String → List String → Except FsErr VFS
  | v, _, [] => Except.ok v
  | v, current, part :: rest =>
    match v.mkdir (current ++ "/" ++ part) with
    | Except.ok v2 => ensureDirs v2 (current ++ "/" ++ part) rest
    | Except.error FsErr.eexist => ensureDirs v (current ++ "/" ++ part) rest
    | Except.error e =>
      if v.pathExists (current ++ "/" ++ part) then ensureDirs v (current ++ "/" ++ part) rest
      else Except.error e

/-- Model of `addIncludeFile`: ensure the directory chain when the name
has more than one component, unlink an existing file at the target, then
write the content. -/
def addIncludeFile (v : VFS) (filename content : String) : Except FsErr VFS :=
  match (if 1 < (jsSplit filename '/').length
         then ensureDirs v "/include" ((jsSplit filename '/').dropLast)
         else Except.ok v) with
  | Except.error e => Except.error e
  | Except.ok v1 =>
    match (if v1.pathExists ("/include/" ++ filename)
           then v1.unlink ("/include/" ++ filename)
           else Except.ok v1) with
    | Except.error e => Except.error e
    | Except.ok v2 => v2.writeFile ("/include/" ++ filename) content

/-- Accumulated directory paths visited by the loop of `addIncludeFile`. -/
def accPaths : String → List String → List String
  | _, [] => []
  | current, part :: rest => (current ++ "/" ++ part) :: accPaths (current ++ "/" ++ part) rest

/-! ## Artifact and cleanup manager (`getCompiledAMX`, `cleanup`) -/

/-- The three fixed paths removed by `cleanup`. -/
def cleanupTargets : List String :=
  ["/input.pwn", "/output.amx", "/output.txt"]

/-- The removal loop of `cleanup`.  The whole loop sits inside one
`try`/`catch` in the source, so the first unlink failure stops the loop;
the returned flag records whether the catch block reported an error. -/
def cleanupLoop : VFS → List String → VFS × Bool
  | v, [] => (v, false)
  | v, f :: rest =>
    if v.pathExists f then
      match v.unlink f with
      | Except.ok v2 => cleanupLoop v2 rest
      | Except.error _ => (v, true)
    else cleanupLoop v rest

/-- Model of `cleanup`: a no-op without a module, otherwise the guarded
removal loop over the three fixed paths. -/
def cleanup (compilerModule : Bool) (v : VFS) : VFS × Bool :=
  if compilerModule then cleanupLoop v cleanupTargets else (v, false)

/-- Model of `getCompiledAMX`: throws without a module; returns an
explicit `none` when nothing exists at the fixed output path; reads the
file otherwise, converting a read failure into `none`. -/
def getCompiledAMX (compilerModule : Bool) (v : VFS) : Except Unit (Option String) :=
  if !compilerModule then Except.error ()
  else if !(v.pathExists "/output.amx") then Except.ok none
  else
    match v.readFile "/output.amx" with
    | Except.ok data => Except.ok (some data)
    | Except.error _ => Except.ok none

/-- Concrete store for the cleanup counterexample: a directory occupies
the fixed input path while a file sits at the fixed output path. -/
def vfsDirAtInput : VFS :=
  { dirs := ["/input.pwn"], files := [("/output.amx", "amx")] }

/-- Concrete store with both transient files present as regular files. -/
def vfsBothFiles : VFS :=
  { dirs := ["/include"], files := [("/input.pwn", "src"), ("/output.amx", "amx")] }

/-- Concrete store of a freshly initialized module: include root only. -/
def vfsFresh : VFS :=
  { dirs := ["/include"], files := [] }

/-- Concrete store holding a compiled artifact. -/
def vfsWithArtifact : VFS :=
  { dirs := ["/include"], files := [("/output.amx", "bin")] }

/-! ## C entry point (`pawncl_compile` argument vector) -/

/-- Token sequence produced by the `strtok(options_copy, " ")` loop:
maximal runs of non-space characters. -/
def strtokSpaces (s : String) : List String :=
  (jsSplit s ' ').filter (fun t => t != "")

/-- The token-copy loop of `pawncl_compile`: tokens are appended while
the vector holds fewer than 30 entries. -/
def tokenLoop : List String → List String → List String
  | argv, [] => argv
  | argv, t :: rest =>
    if argv.length < 30 then tokenLoop (argv ++ [t]) rest else argv

/-- Argument vector built by `pawncl_compile`: program name, fixed output
flag, the bounded token loop over the options string, then the fixed
input path. -/
def pawnclArgv (options : String) : List String :=
  (if 0 < options.length
   then tokenLoop ["pawncc", "-o/output.amx"] (strtokSpaces options)
   else ["pawncc", "-o/output.amx"]) ++ ["/input.pwn"]


/-! ## Helper lemmas about the diagnostic parser -/

theorem parseLine_success (acc : ParseAcc) (line : String) :
    (parseLine acc line).success = (acc.success || jsIncludes line "Compilation successful") := by
  unfold parseLine
  cases hm : jsIncludes line "Compilation successful" <;>
    cases hs : findAmxSize line.toList <;>
      cases he : (jsIncludes line "error" && jsIncludes line ":") <;>
        cases hw : (jsIncludes line "warning" && jsIncludes line ":") <;>
          simp [hm, hs, he, hw]

theorem parseLine_errors (acc : ParseAcc) (line : String) :
    (parseLine acc line).errors =
      acc.errors ++ (if jsIncludes line "error" && jsIncludes line ":" then [jsTrim line] else []) := by
  unfold parseLine
  cases hm : jsIncludes line "Compilation successful" <;>
    cases hs : findAmxSize line.toList <;>
      cases he : (jsIncludes line "error" && jsIncludes line ":") <;>
        cases hw : (jsIncludes line "warning" && jsIncludes line ":") <;>
          simp [hm, hs, he, hw]

theorem parseLine_warnings (acc : ParseAcc) (line : String) :
    (parseLine acc line).warnings =
      acc.warnings ++ (if jsIncludes line "warning" && jsIncludes line ":" then [jsTrim line] else []) := by
  unfold parseLine
  cases hm : jsIncludes line "Compilation successful" <;>
    cases hs : findAmxSize line.toList <;>
      cases he : (jsIncludes line "error" && jsIncludes line ":") <;>
        cases hw : (jsIncludes line "warning" && jsIncludes line ":") <;>
          simp [hm, hs, he, hw]

theorem foldl_parseLine_success (lines : List String) : ∀ acc : ParseAcc,
    (lines.foldl parseLine acc).success =
      (acc.success || lines.any (fun l => jsIncludes l "Compilation successful")) := by
  induction lines with
  | nil => intro acc; simp
  | cons l rest ih =>
    intro acc
    rw [List.foldl_cons, ih, parseLine_success, List.any_cons, Bool.or_assoc]

theorem foldl_parseLine_errors (lines : List String) : ∀ acc : ParseAcc,
    (lines.foldl parseLine acc).errors =
      acc.errors ++ (lines.filter (fun l => jsIncludes l "error" && jsIncludes l ":")).map jsTrim := by
  induction lines with
  | nil => intro acc; simp
  | cons l rest ih =>
    intro acc
    rw [List.foldl_cons, ih, parseLine_errors, List.filter_cons]
    by_cases hc : (jsIncludes l "error" && jsIncludes l ":") = true
    · simp [hc]
    · simp [hc]

theorem foldl_parseLine_warnings (lines : List String) : ∀ acc : ParseAcc,
    (lines.foldl parseLine acc).warnings =
      acc.warnings ++ (lines.filter (fun l => jsIncludes l "warning" && jsIncludes l ":")).map jsTrim := by
  induction lines with
  | nil => intro acc; simp
  | cons l rest ih =>
    intro acc
    rw [List.foldl_cons, ih, parseLine_warnings, List.filter_cons]
    by_cases hc : (jsIncludes l "warning" && jsIncludes l ":") = true
    · simp [hc]
    · simp [hc]

/-- C5: parsing the canonical success output yields `success = true`,
`amxSize = 4096` and empty diagnostic lists; in general, `success` is set
exactly when some line of the raw output contains the literal success
marker. -/
theorem parse_success_marker :
    parseCompilerOutput "Compilation successful! AMX file size: 4096 bytes\n" =
      { success := true,
        output := "Compilation successful! AMX file size: 4096 bytes\n",
        errors := [], warnings := [], amxSize := some 4096 } ∧
    ∀ out : String, ((parseCompilerOutput out).success = true ↔
      ∃ line ∈ jsSplit out '\n', jsIncludes line "Compilation successful" = true) := by
  constructor
  · decide
  · intro out
    show (parseAccOf out).success = true ↔ _
    unfold parseAccOf
    rw [foldl_parseLine_success]
    simp [List.any_eq_true]

/-- C6: every line containing both substrings error and a colon is
appended to `errors`, every line containing warning and a colon to
`warnings`, each in line order and after trimming; `success` is exactly
the presence of the marker line, hence false when it never occurs; the
canonical undefined-symbol line is collected verbatim with
`success = false`. -/
theorem parse_error_warning_lines :
    (∀ out : String, (parseCompilerOutput out).errors =
        ((jsSplit out '\n').filter (fun l => jsIncludes l "error" && jsIncludes l ":")).map jsTrim) ∧
    (∀ out : String, (parseCompilerOutput out).warnings =
        ((jsSplit out '\n').filter (fun l => jsIncludes l "warning" && jsIncludes l ":")).map jsTrim) ∧
    (∀ out : String, (parseCompilerOutput out).success =
        (jsSplit out '\n').any (fun l => jsIncludes l "Compilation successful")) ∧
    (parseCompilerOutput "Pawn compiler\ninput.pwn(3) : error 017: undefined symbol\n").success = false ∧
    (parseCompilerOutput "Pawn compiler\ninput.pwn(3) : error 017: undefined symbol\n").errors =
      ["input.pwn(3) : error 017: undefined symbol"] := by
  refine ⟨?_, ?_, ?_, ?_, ?_⟩
  · intro out
    show (parseAccOf out).errors = _
    unfold parseAccOf
    rw [foldl_parseLine_errors]
    simp
  · intro out
    show (parseAccOf out).warnings = _
    unfold parseAccOf
    rw [foldl_parseLine_warnings]
    simp
  · intro out
    show (parseAccOf out).success = _
    unfold parseAccOf
    rw [foldl_parseLine_success]
    simp
  · decide
  · decide


/-! ## Marshaling and bridge lemmas -/

theorem buildOptionsArray_eq (o : CompilerOptions) :
    buildOptionsArray o =
      optFlag o.optimizationLevel ++ dbgFlag o.debugLevel ++ ["-i/include"] ++
        o.additionalFlags.getD [] := by
  unfold buildOptionsArray optFlag dbgFlag
  cases o.optimizationLevel <;> cases o.debugLevel <;> cases o.additionalFlags <;> simp

theorem dash_append_ne_input (c : Char) (cs : List Char) (t : String) (hc : ¬(c = '/')) :
    ¬(String.mk (c :: cs) ++ t = "/input.pwn") := by
  intro h
  have hd := congrArg String.data h
  rw [String.data_append] at hd
  have h1 : (String.mk (c :: cs)).data = c :: cs := rfl
  have h2 : ("/input.pwn").data = '/' :: ("input.pwn").data := rfl
  rw [h1, h2, List.cons_append] at hd
  exact hc (List.head_eq_of_cons_eq hd)

/-- C4: the marshaled flag list is, in fixed order, the optimization flag
(present exactly when the level is), the debug flag (present exactly when
the level is), the fixed include flag, then the additional flags
verbatim; the positional source path is never injected by the marshaler;
and the canonical example marshals to the exact expected string. -/
theorem marshal_flag_order :
    (∀ o : CompilerOptions, buildOptionsArray o =
        optFlag o.optimizationLevel ++ dbgFlag o.debugLevel ++ ["-i/include"] ++
          o.additionalFlags.getD []) ∧
    (∀ o : CompilerOptions, "/input.pwn" ∈ buildOptionsArray o →
        "/input.pwn" ∈ o.additionalFlags.getD []) ∧
    optionsStringOf
        { optimizationLevel := some 2, debugLevel := some 3, additionalFlags := some ["-Z+"] } =
      "-O2 -d3 -i/include -Z+" := by
  refine ⟨buildOptionsArray_eq, ?_, by decide⟩
  intro o hmem
  rw [buildOptionsArray_eq] at hmem
  simp only [List.mem_append] at hmem
  rcases hmem with ((hopt | hdbg) | hinc) | hadd
  · cases ho : o.optimizationLevel with
    | none => rw [ho] at hopt; simp [optFlag] at hopt
    | some n =>
      rw [ho] at hopt
      simp only [optFlag, List.mem_singleton] at hopt
      exact absurd hopt.symm (dash_append_ne_input '-' ['O'] (toString n) (by decide))
  · cases ho : o.debugLevel with
    | none => rw [ho] at hdbg; simp [dbgFlag] at hdbg
    | some n =>
      rw [ho] at hdbg
      simp only [dbgFlag, List.mem_singleton] at hdbg
      exact absurd hdbg.symm (dash_append_ne_input '-' ['d'] (toString n) (by decide))
  · simp at hinc
  · exact hadd

/-- C4 witness: the source path appears in the marshaled list only when
the caller already put it among the additional flags. -/
theorem marshal_flag_order_witness :
    "/input.pwn" ∈
      ({ optimizationLevel := none, debugLevel := none,
         additionalFlags := some ["/input.pwn"] } : CompilerOptions).additionalFlags.getD [] :=
  marshal_flag_order.2.1
    { optimizationLevel := none, debugLevel := none, additionalFlags := some ["/input.pwn"] }
    (by decide)


/-! ## Lifecycle reachability and the invocation bridge -/

theorem ready_implies_module (acts : List Act) : ∀ cfg : Config,
    (cfg.compilerReady = true → cfg.compilerModule = true) →
    ((runTrace cfg acts).compilerReady = true → (runTrace cfg acts).compilerModule = true) := by
  induction acts with
  | nil => intro cfg h; exact h
  | cons a rest ih =>
    intro cfg h
    have hstep : (step cfg a).compilerReady = true → (step cfg a).compilerModule = true := by
      cases a with
      | call c =>
        unfold step
        by_cases h1 : cfg.pcs c ≠ PC.idle
        · simp [h1]; exact h
        · by_cases h2 : cfg.compilerReady = true
          · simp [h1, h2]; exact h h2
          · by_cases h3 : cfg.compilerModule = true
            · simp [h1, h2, h3]
            · simp [h1, h2, h3]
      | importDone c ok =>
        unfold step
        by_cases h1 : cfg.pcs c ≠ PC.awaitImport
        · simp [h1]; exact h
        · cases ok <;> simp [h1] <;> exact h
      | createDone c ok mkdirOk =>
        unfold step
        by_cases h1 : cfg.pcs c ≠ PC.awaitCreate
        · simp [h1]; exact h
        · cases ok with
          | false => simp [h1]; exact h
          | true => cases mkdirOk <;> simp [h1]
    exact ih (step cfg a) hstep

/-- C3: along every schedule of `initCompiler` callers, `compile` throws
the initialization-required failure exactly when the lifecycle state is
not `Ready`; when the state is `Ready` no failure escapes: a boundary
error is returned as a `success = false` result carrying the failure
text as both `output` and the sole `errors` entry, and a boundary
success is returned parsed. -/
theorem compile_throws_iff_not_ready (acts : List Act) (boundary : Except String String) :
    ((∃ e, compile (runTrace initConfig acts).compilerReady
        (runTrace initConfig acts).compilerModule boundary = Except.error e) ↔
      stateOf (runTrace initConfig acts) ≠ ModuleState.Ready) ∧
    (stateOf (runTrace initConfig acts) = ModuleState.Ready →
      (∀ e, boundary = Except.error e →
        compile (runTrace initConfig acts).compilerReady
            (runTrace initConfig acts).compilerModule boundary =
          Except.ok { success := false, output := e, errors := [e],
                      warnings := [], amxSize := none }) ∧
      (∀ raw, boundary = Except.ok raw →
        compile (runTrace initConfig acts).compilerReady
            (runTrace initConfig acts).compilerModule boundary =
          Except.ok (parseCompilerOutput raw))) := by
  have hinv := ready_implies_module acts initConfig (by intro h; cases h)
  rcases hr : (runTrace initConfig acts).compilerReady with _ | _
  · rcases hm : (runTrace initConfig acts).compilerModule with _ | _
    · constructor
      · simp [compile, stateOf, lifecycleState, hr, hm]
      · intro hready
        simp [stateOf, lifecycleState, hr, hm] at hready
    · constructor
      · simp [compile, stateOf, lifecycleState, hr, hm]
      · intro hready
        simp [stateOf, lifecycleState, hr, hm] at hready
  · have hm := hinv hr
    constructor
    · constructor
      · intro hex
        rcases hex with ⟨e, he⟩
        simp [compile, hr, hm] at he
        cases boundary <;> simp at he
      · intro hne
        exact absurd (by simp [stateOf, lifecycleState, hr]) hne
    · intro _
      constructor
      · intro e hb
        rw [hb]
        simp [compile, hr, hm]
      · intro raw hb
        rw [hb]
        simp [compile, hr, hm]

/-- C3 witness: after a successful initialization run, a boundary failure
is converted into a structured failure result. -/
theorem compile_throws_iff_not_ready_witness :
    compile (runTrace initConfig [Act.call 1, Act.importDone 1 true,
        Act.createDone 1 true true]).compilerReady
      (runTrace initConfig [Act.call 1, Act.importDone 1 true,
        Act.createDone 1 true true]).compilerModule (Except.error "transport failure") =
      Except.ok { success := false, output := "transport failure",
                  errors := ["transport failure"], warnings := [], amxSize := none } :=
  ((compile_throws_iff_not_ready [Act.call 1, Act.importDone 1 true, Act.createDone 1 true true]
      (Except.error "transport failure")).2 (by decide)).1 "transport failure" rfl


/-! ## Argument vector of `pawncl_compile` -/

theorem tokenLoop_eq (toks : List String) : ∀ argv : List String,
    tokenLoop argv toks = argv ++ toks.take (30 - argv.length) := by
  induction toks with
  | nil => intro argv; simp [tokenLoop]
  | cons t rest ih =>
    intro argv
    unfold tokenLoop
    by_cases hlen : argv.length < 30
    · rw [if_pos hlen, ih (argv ++ [t])]
      have h30 : 30 - argv.length = (30 - (argv ++ [t]).length) + 1 := by
        simp [List.length_append]
        omega
      rw [h30, List.take_succ_cons, List.append_assoc, List.singleton_append]
    · rw [if_neg hlen]
      have h0 : 30 - argv.length = 0 := by omega
      rw [h0, List.take_zero, List.append_nil]

/-- C10: for every options string, the argument vector built by
`pawncl_compile` is the two fixed entries, then at most 28
whitespace-separated option tokens (the token loop stops at 30 vector
entries), then the positional input path appended last; a 29-token
options string is silently truncated to its first 28 tokens. -/
theorem pawncl_argv_truncation :
    (∀ opts : String, pawnclArgv opts =
        ["pawncc", "-o/output.amx"] ++ (strtokSpaces opts).take 28 ++ ["/input.pwn"]) ∧
    pawnclArgv (joinSep " " (List.replicate 29 "-a")) =
      ["pawncc", "-o/output.amx"] ++ List.replicate 28 "-a" ++ ["/input.pwn"] ∧
    (strtokSpaces (joinSep " " (List.replicate 29 "-a"))).length = 29 := by
  have hall : ∀ opts : String, pawnclArgv opts =
      ["pawncc", "-o/output.amx"] ++ (strtokSpaces opts).take 28 ++ ["/input.pwn"] := by
    intro opts
    unfold pawnclArgv
    by_cases hlen : 0 < opts.length
    · rw [if_pos hlen, tokenLoop_eq]
      simp
    · rw [if_neg hlen]
      cases opts with
      | mk data =>
        cases data with
        | nil => decide
        | cons c cs => simp [String.length] at hlen
  exact ⟨hall, by decide, by decide⟩


/-! ## Lifecycle manager: the stuck waiter and the stuck state -/

theorem stuck_step (cfg : Config) (a : Act) (h : Stuck cfg) : Stuck (step cfg a) := by
  obtain ⟨hm, h2, hpc⟩ := h
  cases a with
  | call c =>
    unfold step
    by_cases h1 : cfg.pcs c ≠ PC.idle
    · simpa [h1] using ⟨hm, h2, hpc⟩
    · push_neg at h1
      have hc2 : ¬(2 = c) := by
        intro he
        rw [← he, h2] at h1
        cases h1
      by_cases hr : cfg.compilerReady = true
      · refine ⟨by simp [h1, hr, hm], ?_, ?_⟩
        · simp [h1, hr, setPC, hc2, h2]
        · intro x
          by_cases hx : x = c
          · simp [h1, hr, setPC, hx]
          · simp [h1, hr, setPC, hx]
            exact hpc x
      · have hrf : cfg.compilerReady = false := by
          cases hcr : cfg.compilerReady
          · rfl
          · exact absurd hcr hr
        refine ⟨by simp [h1, hrf, hm], ?_, ?_⟩
        · simp [h1, hrf, hm, setPC, hc2, h2]
        · intro x
          by_cases hx : x = c
          · simp [h1, hrf, hm, setPC, hx]
          · simp [h1, hrf, hm, setPC, hx]
            exact hpc x
  | importDone c ok =>
    have h1 : cfg.pcs c ≠ PC.awaitImport := (hpc c).1
    simpa [step, h1] using ⟨hm, h2, hpc⟩
  | createDone c ok mkdirOk =>
    have h1 : cfg.pcs c ≠ PC.awaitCreate := (hpc c).2
    simpa [step, h1] using ⟨hm, h2, hpc⟩

theorem stuck_runTrace (acts : List Act) : ∀ cfg : Config,
    Stuck cfg → Stuck (runTrace cfg acts) := by
  induction acts with
  | nil => intro cfg h; exact h
  | cons a rest ih =>
    intro cfg h
    exact ih (step cfg a) (stuck_step cfg a h)

theorem stuck_after_stuckTrace : Stuck (runTrace initConfig stuckTrace) := by
  have hfun : (runTrace initConfig stuckTrace).pcs =
      setPC (setPC (setPC (setPC (fun _ => PC.idle) 1 PC.awaitImport) 1 PC.awaitCreate) 1
        PC.doneError) 2 PC.waiting := rfl
  refine ⟨by decide, by decide, ?_⟩
  intro x
  rw [hfun]
  by_cases hx2 : x = 2
  · simp [setPC, hx2]
  · by_cases hx1 : x = 1
    · simp [setPC, hx2, hx1]
    · simp [setPC, hx2, hx1]

/-- C1: caller 2 invokes `initCompiler` while the module variable is set
but not ready (after caller 1's initialization failed at the
`FS.mkdir('/include')` step); caller 2 is enqueued on `readyCallbacks`
and then stays in the `waiting` state after every further schedule of
events: its promise is never resolved nor rejected, so it neither
observes the failure nor ever resumes. -/
theorem initCompiler_waiter_never_resumes :
    ((runTrace initConfig stuckTrace).pcs 2 = PC.waiting ∧
      (runTrace initConfig stuckTrace).readyCallbacks = [2]) ∧
    ∀ acts : List Act, (runTrace (runTrace initConfig stuckTrace) acts).pcs 2 = PC.waiting := by
  refine ⟨⟨by decide, by decide⟩, ?_⟩
  intro acts
  exact (stuck_runTrace acts (runTrace initConfig stuckTrace) stuck_after_stuckTrace).2.1

/-- C2: when caller 1's initialization fails at the creation of the
top-level include directory, the lifecycle state is left at
`Initializing` (module variable still set, ready flag unset), not at
`Uninitialized`; only a failure of module acquisition itself (either
await rejecting) leaves the state at `Uninitialized`. -/
theorem initCompiler_mkdir_failure_state :
    stateOf (runTrace initConfig mkdirFailTrace) = ModuleState.Initializing ∧
    ¬(stateOf (runTrace initConfig mkdirFailTrace) = ModuleState.Uninitialized) ∧
    (runTrace initConfig mkdirFailTrace).pcs 1 = PC.doneError ∧
    stateOf (runTrace initConfig [Act.call 1, Act.importDone 1 false]) =
      ModuleState.Uninitialized ∧
    stateOf (runTrace initConfig [Act.call 1, Act.importDone 1 true,
      Act.createDone 1 false true]) = ModuleState.Uninitialized := by
  refine ⟨by decide, by decide, by decide, by decide, by decide⟩


/-! ## Virtual filesystem lemmas -/

theorem contains_mem (l : List String) (d : String) : l.contains d = true ↔ d ∈ l :=
  ⟨List.mem_of_elem_eq_true, List.elem_eq_true_of_mem⟩

theorem contains_append_left (l1 l2 : List String) (d : String) (h : l1.contains d = true) :
    (l1 ++ l2).contains d = true :=
  (contains_mem _ _).mpr (List.mem_append_left _ ((contains_mem _ _).mp h))

theorem contains_append_self (l1 : List String) (d : String) :
    (l1 ++ [d]).contains d = true :=
  (contains_mem _ _).mpr (List.mem_append_right _ (List.mem_singleton.mpr rfl))

theorem mkdir_ok_inv (v v2 : VFS) (p : String) (h : v.mkdir p = Except.ok v2) :
    v2.dirs = v.dirs ++ [p] ∧ v2.files = v.files := by
  unfold VFS.mkdir at h
  by_cases h1 : v.pathExists p = true
  · rw [if_pos h1] at h; cases h
  · rw [if_neg h1] at h
    by_cases h2 : v.dirs.contains (parentOf p) = true
    · rw [if_pos h2] at h
      cases h
      exact ⟨rfl, rfl⟩
    · rw [if_neg h2] at h; cases h

theorem mkdir_eexist_inv (v : VFS) (p : String) (h : v.mkdir p = Except.error FsErr.eexist) :
    v.pathExists p = true := by
  by_cases h1 : v.pathExists p = true
  · exact h1
  · unfold VFS.mkdir at h
    rw [if_neg h1] at h
    by_cases h2 : v.dirs.contains (parentOf p) = true
    · rw [if_pos h2] at h; cases h
    · rw [if_neg h2] at h
      exact absurd (Except.error.inj h) (by decide)

theorem unlink_ok_inv (v v2 : VFS) (p : String) (h : v.unlink p = Except.ok v2) :
    v.dirs.contains p = false ∧ v2.dirs = v.dirs ∧
      v2.files = v.files.filter (fun e => e.1 != p) := by
  unfold VFS.unlink at h
  by_cases h1 : v.dirs.contains p = true
  · rw [if_pos h1] at h; cases h
  · rw [if_neg h1] at h
    by_cases h2 : v.isFile p = true
    · rw [if_pos h2] at h
      cases h
      exact ⟨by simpa using h1, rfl, rfl⟩
    · rw [if_neg h2] at h; cases h

theorem unlink_ok_of (v : VFS) (p : String) (h1 : v.dirs.contains p = false)
    (h2 : v.isFile p = true) :
    v.unlink p = Except.ok { dirs := v.dirs, files := v.files.filter (fun e => e.1 != p) } := by
  unfold VFS.unlink
  rw [if_neg (show ¬(v.dirs.contains p = true) by rw [h1]; simp), if_pos h2]

theorem writeFile_ok_inv (v v2 : VFS) (p c : String) (h : v.writeFile p c = Except.ok v2) :
    v.dirs.contains p = false ∧ v.dirs.contains (parentOf p) = true ∧
      v2.dirs = v.dirs ∧ v2.files = v.files.filter (fun e => e.1 != p) ++ [(p, c)] := by
  unfold VFS.writeFile at h
  by_cases h1 : v.dirs.contains p = true
  · rw [if_pos h1] at h; cases h
  · rw [if_neg h1] at h
    by_cases h2 : v.dirs.contains (parentOf p) = true
    · rw [if_pos h2] at h
      cases h
      exact ⟨by simpa using h1, h2, rfl, rfl⟩
    · rw [if_neg h2] at h; cases h

theorem writeFile_ok_of (v : VFS) (p c : String) (h1 : v.dirs.contains p = false)
    (h2 : v.dirs.contains (parentOf p) = true) :
    v.writeFile p c =
      Except.ok { dirs := v.dirs, files := v.files.filter (fun e => e.1 != p) ++ [(p, c)] } := by
  unfold VFS.writeFile
  rw [if_neg (show ¬(v.dirs.contains p = true) by rw [h1]; simp), if_pos h2]

theorem pathExists_mono (v w : VFS) (p : String)
    (hd : ∀ d, v.dirs.contains d = true → w.dirs.contains d = true)
    (hf : w.files = v.files) (h : v.pathExists p = true) : w.pathExists p = true := by
  simp only [VFS.pathExists, Bool.or_eq_true] at h ⊢
  rcases h with hdir | hfile
  · exact Or.inl (hd p hdir)
  · refine Or.inr ?_
    unfold VFS.isFile at hfile ⊢
    rw [hf]
    exact hfile

theorem filter_key_nil (l : List (String × String)) (k : String) :
    (l.filter (fun e => e.1 != k)).filter (fun e => e.1 == k) = [] := by
  induction l with
  | nil => rfl
  | cons e rest ih =>
    by_cases he : e.1 == k
    · simp only [List.filter_cons, bne, he, Bool.not_true, if_neg]
      exact ih
    · have hne : (e.1 != k) = true := by simp [bne, he]
      simp only [List.filter_cons, hne, if_pos]
      have hf : (e.1 == k) = false := by simp [he]
      simp only [List.filter_cons, hf]
      exact ih

theorem any_key_filter (l : List (String × String)) (k : String) :
    (l.filter (fun e => e.1 != k)).any (fun e => e.1 == k) = false := by
  induction l with
  | nil => rfl
  | cons e rest ih =>
    by_cases he : e.1 == k
    · simp only [List.filter_cons, bne, he, Bool.not_true, if_neg]
      exact ih
    · have hne : (e.1 != k) = true := by simp [bne, he]
      simp only [List.filter_cons, hne, if_pos, List.any_cons]
      simp [he, ih]

theorem filter_key_of_append (l : List (String × String)) (k c : String) :
    ((l.filter (fun e => e.1 != k)) ++ [(k, c)]).filter (fun e => e.1 == k) = [(k, c)] := by
  rw [List.filter_append, filter_key_nil]
  simp


theorem isFile_filter_ne (l : List (String × String)) (q k : String) (hqk : ¬(q = k))
    (h : l.any (fun e => e.1 == q) = true) :
    (l.filter (fun e => e.1 != k)).any (fun e => e.1 == q) = true := by
  rcases List.any_eq_true.mp h with ⟨e, he, hq⟩
  refine List.any_eq_true.mpr ⟨e, List.mem_filter.mpr ⟨he, ?_⟩, hq⟩
  have he1 : e.1 = q := by simpa using hq
  simp [bne, he1, hqk]

theorem isFile_append_self (l : List (String × String)) (k c : String) :
    (l ++ [(k, c)]).any (fun e => e.1 == k) = true := by
  rw [List.any_append]
  simp

theorem ensureDirs_ok (parts : List String) : ∀ (v w : VFS) (current : String),
    ensureDirs v current parts = Except.ok w →
    w.files = v.files ∧
    (∀ d, v.dirs.contains d = true → w.dirs.contains d = true) ∧
    (∀ q ∈ accPaths current parts, w.pathExists q = true) := by
  induction parts with
  | nil =>
    intro v w current h
    cases h
    refine ⟨rfl, fun d hd => hd, ?_⟩
    intro q hq
    simp [accPaths] at hq
  | cons part rest ih =>
    intro v w current h
    unfold ensureDirs at h
    split at h
    · rename_i v2 heq
      obtain ⟨hd2, hf2⟩ := mkdir_ok_inv v v2 _ heq
      obtain ⟨hfw, hdw, hacc⟩ := ih v2 w _ h
      refine ⟨by rw [hfw, hf2], ?_, ?_⟩
      · intro d hd
        exact hdw d (by rw [hd2]; exact contains_append_left _ _ _ hd)
      · intro q hq
        simp only [accPaths, List.mem_cons] at hq
        rcases hq with hq1 | hq2
        · subst hq1
          have hw : w.dirs.contains (current ++ "/" ++ part) = true :=
            hdw _ (by rw [hd2]; exact contains_append_self _ _)
          simp only [VFS.pathExists, Bool.or_eq_true]
          exact Or.inl hw
        · exact hacc q hq2
    · rename_i heq
      have hex := mkdir_eexist_inv v _ heq
      obtain ⟨hfw, hdw, hacc⟩ := ih v w _ h
      refine ⟨hfw, hdw, ?_⟩
      intro q hq
      simp only [accPaths, List.mem_cons] at hq
      rcases hq with hq1 | hq2
      · subst hq1
        exact pathExists_mono v w _ hdw hfw hex
      · exact hacc q hq2
    · split at h
      · rename_i hex
        obtain ⟨hfw, hdw, hacc⟩ := ih v w _ h
        refine ⟨hfw, hdw, ?_⟩
        intro q hq
        simp only [accPaths, List.mem_cons] at hq
        rcases hq with hq1 | hq2
        · subst hq1
          exact pathExists_mono v w _ hdw hfw hex
        · exact hacc q hq2
      · cases h

theorem ensureDirs_exists_ok (parts : List String) : ∀ (v : VFS) (current : String),
    (∀ q ∈ accPaths current parts, v.pathExists q = true) →
    ensureDirs v current parts = Except.ok v := by
  induction parts with
  | nil => intro v current _; rfl
  | cons part rest ih =>
    intro v current hall
    have hnext : v.pathExists (current ++ "/" ++ part) = true :=
      hall _ (by simp [accPaths])
    have hm : v.mkdir (current ++ "/" ++ part) = Except.error FsErr.eexist := by
      unfold VFS.mkdir
      rw [if_pos hnext]
    unfold ensureDirs
    rw [hm]
    exact ih v _ (fun q hq => hall q (by simp [accPaths]; exact Or.inr hq))

theorem addIncludeFile_post (v v1 : VFS) (f c : String)
    (h : addIncludeFile v f c = Except.ok v1) :
    v1.dirs.contains ("/include/" ++ f) = false ∧
    v1.dirs.contains (parentOf ("/include/" ++ f)) = true ∧
    v1.isFile ("/include/" ++ f) = true ∧
    v1.files.filter (fun e => e.1 == "/include/" ++ f) = [("/include/" ++ f, c)] ∧
    (∀ q ∈ accPaths "/include" ((jsSplit f '/').dropLast), v1.pathExists q = true) := by
  unfold addIncludeFile at h
  have hensure : ∃ a : VFS,
      (if 1 < (jsSplit f '/').length
       then ensureDirs v "/include" ((jsSplit f '/').dropLast)
       else Except.ok v) = Except.ok a ∧
      a.files = v.files ∧
      (∀ q ∈ accPaths "/include" ((jsSplit f '/').dropLast), a.pathExists q = true) := by
    by_cases hlen : 1 < (jsSplit f '/').length
    · rw [if_pos hlen]
      rw [if_pos hlen] at h
      cases hE : ensureDirs v "/include" ((jsSplit f '/').dropLast) with
      | error e => rw [hE] at h; cases h
      | ok a =>
        obtain ⟨hfa, _, hacc⟩ := ensureDirs_ok _ v a _ hE
        exact ⟨a, rfl, hfa, hacc⟩
    · rw [if_neg hlen]
      refine ⟨v, rfl, rfl, ?_⟩
      intro q hq
      have hz : (jsSplit f '/').dropLast = [] := by
        cases hs : jsSplit f '/' with
        | nil => rfl
        | cons x xs =>
          cases xs with
          | nil => rfl
          | cons y ys => rw [hs] at hlen; simp at hlen
      rw [hz] at hq
      simp [accPaths] at hq
  obtain ⟨a, hEok, hfa, hacc⟩ := hensure
  rw [hEok] at h
  replace h : (match (if a.pathExists ("/include/" ++ f) = true
      then a.unlink ("/include/" ++ f) else Except.ok a) with
    | Except.error e => Except.error e
    | Except.ok v2 => v2.writeFile ("/include/" ++ f) c) = Except.ok v1 := h
  have hmid : ∃ b : VFS, b.dirs = a.dirs ∧
      b.files = (if a.pathExists ("/include/" ++ f) then a.files.filter
        (fun e => e.1 != "/include/" ++ f) else a.files) ∧
      b.writeFile ("/include/" ++ f) c = Except.ok v1 := by
    by_cases hex : a.pathExists ("/include/" ++ f) = true
    · rw [if_pos hex] at h ⊢
      cases hU : a.unlink ("/include/" ++ f) with
      | error e => rw [hU] at h; cases h
      | ok b =>
        obtain ⟨_, hbd, hbf⟩ := unlink_ok_inv a b _ hU
        rw [hU] at h
        exact ⟨b, hbd, hbf, h⟩
    · rw [if_neg hex] at h ⊢
      exact ⟨a, rfl, rfl, h⟩
  obtain ⟨b, hbd, hbf, hW⟩ := hmid
  obtain ⟨hnd, hpd, hv1d, hv1f⟩ := writeFile_ok_inv b v1 _ c hW
  have hv1nd : v1.dirs.contains ("/include/" ++ f) = false := by rw [hv1d]; exact hnd
  have hv1pd : v1.dirs.contains (parentOf ("/include/" ++ f)) = true := by
    rw [hv1d]; exact hpd
  refine ⟨hv1nd, hv1pd, ?_, ?_, ?_⟩
  · unfold VFS.isFile
    rw [hv1f]
    exact isFile_append_self _ _ _
  · rw [hv1f]
    exact filter_key_of_append _ _ _
  · intro q hq
    have haq := hacc q hq
    by_cases hqp : q = "/include/" ++ f
    · subst hqp
      have hfile : v1.isFile ("/include/" ++ f) = true := by
        unfold VFS.isFile
        rw [hv1f]
        exact isFile_append_self _ _ _
      simp only [VFS.pathExists, Bool.or_eq_true]
      exact Or.inr hfile
    · simp only [VFS.pathExists, Bool.or_eq_true] at haq ⊢
      rcases haq with hdir | hfile
      · refine Or.inl ?_
        rw [hv1d, hbd]
        exact hdir
      · refine Or.inr ?_
        unfold VFS.isFile at hfile ⊢
        rw [hv1f, List.any_append]
        simp only [Bool.or_eq_true]
        refine Or.inl ?_
        rw [hbf]
        by_cases hex2 : a.pathExists ("/include/" ++ f) = true
        · rw [if_pos hex2]
          exact isFile_filter_ne _ _ _ hqp (isFile_filter_ne _ _ _ hqp hfile)
        · rw [if_neg hex2]
          exact isFile_filter_ne _ _ _ hqp hfile


/-- C7: after a successful `addIncludeFile`, every directory prefix of
the path below the include root exists, and an immediately following
`addIncludeFile` on the same path with different content succeeds and
leaves exactly the second content at the target path: the last write
wins, with no stale entry from the first write. -/
theorem addInclude_last_write_wins (v v1 : VFS) (f c1 c2 : String)
    (h1 : addIncludeFile v f c1 = Except.ok v1) :
    (∀ q ∈ accPaths "/include" ((jsSplit f '/').dropLast), v1.pathExists q = true) ∧
    ∃ v2, addIncludeFile v1 f c2 = Except.ok v2 ∧
      v2.files.filter (fun e => e.1 == "/include/" ++ f) = [("/include/" ++ f, c2)] := by
  obtain ⟨hnd, hpd, hfile, _, hacc⟩ := addIncludeFile_post v v1 f c1 h1
  refine ⟨hacc, ?_⟩
  have hpe : v1.pathExists ("/include/" ++ f) = true := by
    simp only [VFS.pathExists, Bool.or_eq_true]
    exact Or.inr hfile
  have hE2 : (if 1 < (jsSplit f '/').length
      then ensureDirs v1 "/include" ((jsSplit f '/').dropLast)
      else Except.ok v1) = Except.ok v1 := by
    by_cases hlen : 1 < (jsSplit f '/').length
    · rw [if_pos hlen]
      exact ensureDirs_exists_ok _ v1 _ hacc
    · rw [if_neg hlen]
  have hU2 := unlink_ok_of v1 ("/include/" ++ f) hnd hfile
  have hW2 := writeFile_ok_of
    { dirs := v1.dirs, files := v1.files.filter (fun e => e.1 != "/include/" ++ f) }
    ("/include/" ++ f) c2 hnd hpd
  refine ⟨{ dirs := v1.dirs,
            files := (v1.files.filter (fun e => e.1 != "/include/" ++ f)).filter
                (fun e => e.1 != "/include/" ++ f) ++ [("/include/" ++ f, c2)] }, ?_, ?_⟩
  · unfold addIncludeFile
    rw [hE2]
    show (match (if v1.pathExists ("/include/" ++ f) = true
        then v1.unlink ("/include/" ++ f) else Except.ok v1) with
      | Except.error e => Except.error e
      | Except.ok v2 => v2.writeFile ("/include/" ++ f) c2) = _
    rw [if_pos hpe, hU2]
    exact hW2
  · exact filter_key_of_append _ _ _

/-- C7 witness: concrete second write on `sub/a.inc` over an existing
first write. -/
theorem addInclude_last_write_wins_witness :
    (∀ q ∈ accPaths "/include" ((jsSplit "sub/a.inc" '/').dropLast),
      VFS.pathExists ⟨["/include", "/include/sub"], [("/include/sub/a.inc", "x")]⟩ q = true) ∧
    ∃ v2, addIncludeFile ⟨["/include", "/include/sub"], [("/include/sub/a.inc", "x")]⟩
        "sub/a.inc" "y" = Except.ok v2 ∧
      v2.files.filter (fun e => e.1 == "/include/" ++ "sub/a.inc") =
        [("/include/" ++ "sub/a.inc", "y")] :=
  addInclude_last_write_wins ⟨["/include"], []⟩
    ⟨["/include", "/include/sub"], [("/include/sub/a.inc", "x")]⟩ "sub/a.inc" "x" "y" (by decide)


/-! ## Cleanup and artifact manager -/

theorem filter_ne_of_not_isFile (l : List (String × String)) (k : String)
    (h : l.any (fun e => e.1 == k) = false) : l.filter (fun e => e.1 != k) = l := by
  induction l with
  | nil => rfl
  | cons e rest ih =>
    rw [List.any_cons] at h
    have h1 : (e.1 == k) = false := by
      cases hh : (e.1 == k)
      · rfl
      · rw [hh] at h; simp at h
    have h2 : rest.any (fun e => e.1 == k) = false := by
      cases hh : rest.any (fun e => e.1 == k)
      · rfl
      · rw [hh] at h; simp at h
    rw [List.filter_cons, if_pos (by simp [bne, h1]), ih h2]

theorem cleanupLoop_closed (fs : List String) : ∀ v : VFS,
    (∀ q ∈ fs, v.dirs.contains q = false) →
    cleanupLoop v fs =
      ({ dirs := v.dirs, files := v.files.filter (fun e => fs.all (fun q => e.1 != q)) },
        false) := by
  induction fs with
  | nil =>
    intro v _
    show (v, false) = _
    have hid : v.files.filter (fun e => List.all [] (fun q => e.1 != q)) = v.files := by
      simp
    rw [hid]
  | cons f rest ih =>
    intro v hnd
    have hf : v.dirs.contains f = false := hnd f (List.mem_cons_self f rest)
    by_cases hex : v.pathExists f = true
    · have hisf : v.isFile f = true := by
        simp only [VFS.pathExists, Bool.or_eq_true] at hex
        rcases hex with hdir | hfile
        · rw [hf] at hdir; cases hdir
        · exact hfile
      have hU := unlink_ok_of v f hf hisf
      have hstep : cleanupLoop v (f :: rest) =
          cleanupLoop { dirs := v.dirs, files := v.files.filter (fun e => e.1 != f) } rest := by
        show (if v.pathExists f = true then
            match v.unlink f with
            | Except.ok v2 => cleanupLoop v2 rest
            | Except.error _ => (v, true)
          else cleanupLoop v rest) = _
        rw [if_pos hex, hU]
      rw [hstep, ih { dirs := v.dirs, files := v.files.filter (fun e => e.1 != f) }
        (fun q hq => hnd q (List.mem_cons_of_mem f hq))]
      have hff : (v.files.filter (fun e => e.1 != f)).filter
          (fun e => rest.all (fun q => e.1 != q)) =
          v.files.filter (fun e => (f :: rest).all (fun q => e.1 != q)) := by
        rw [List.filter_filter]
        apply List.filter_congr
        intro e _
        simp [List.all_cons, Bool.and_comm]
      rw [hff]
    · have hnotf : v.isFile f = false := by
        cases hh : v.isFile f
        · rfl
        · exact absurd (by
            simp only [VFS.pathExists, Bool.or_eq_true]
            exact Or.inr hh) hex
      have hstep : cleanupLoop v (f :: rest) = cleanupLoop v rest := by
        show (if v.pathExists f = true then
            match v.unlink f with
            | Except.ok v2 => cleanupLoop v2 rest
            | Except.error _ => (v, true)
          else cleanupLoop v rest) = _
        rw [if_neg hex]
      rw [hstep, ih v (fun q hq => hnd q (List.mem_cons_of_mem f hq))]
      have hff : v.files.filter (fun e => rest.all (fun q => e.1 != q)) =
          v.files.filter (fun e => (f :: rest).all (fun q => e.1 != q)) := by
        apply List.filter_congr
        intro e he
        have hef : (e.1 == f) = false := by
          cases hh : (e.1 == f)
          · rfl
          · have hany : v.files.any (fun e2 => e2.1 == f) = true :=
              List.any_eq_true.mpr ⟨e, he, hh⟩
            unfold VFS.isFile at hnotf
            rw [hany] at hnotf
            cases hnotf
        simp [List.all_cons, bne, hef]
      rw [hff]

theorem cleanupLoop_absent (fs : List String) : ∀ v : VFS,
    (∀ q ∈ fs, v.pathExists q = false) → cleanupLoop v fs = (v, false) := by
  induction fs with
  | nil => intro v _; rfl
  | cons f rest ih =>
    intro v hab
    have hf : ¬(v.pathExists f = true) := by
      rw [hab f (List.mem_cons_self f rest)]
      simp
    have hstep : cleanupLoop v (f :: rest) = cleanupLoop v rest := by
      show (if v.pathExists f = true then
          match v.unlink f with
          | Except.ok v2 => cleanupLoop v2 rest
          | Except.error _ => (v, true)
        else cleanupLoop v rest) = _
      rw [if_neg hf]
    rw [hstep]
    exact ih v (fun q hq => hab q (List.mem_cons_of_mem f hq))


/-- C8 counterexample: with a directory occupying the fixed input path
and a file present at the fixed output path, `cleanup` hits an unlink
failure on the first path, reports the error, and — because the single
`try`/`catch` wraps the whole loop — never removes the still-present
output file: the failure aborts removal of the remaining files, contrary
to the claimed per-file best-effort behaviour. -/
theorem cleanup_abort_counterexample :
    (cleanup true vfsDirAtInput).2 = true ∧
    ((cleanup true vfsDirAtInput).1).pathExists "/output.amx" = true ∧
    ((cleanup true vfsDirAtInput).1).pathExists "/input.pwn" = true := by
  refine ⟨by decide, by decide, by decide⟩

/-- C8 (amended): `cleanup` removes each fixed path that is present as a
file; a missing file is not an error; an unexpected removal failure is
reported once but aborts the removal of the remaining files (the whole
loop sits in one `try`/`catch`); when no removal fails — in particular
whenever no directory occupies a fixed path — `cleanup` twice in a row
is idempotent: the second call removes nothing and reports no error. -/
theorem cleanup_amended (v : VFS)
    (hnd : ∀ q ∈ cleanupTargets, v.dirs.contains q = false) :
    (cleanup true v).2 = false ∧
    (∀ q ∈ cleanupTargets, ((cleanup true v).1).pathExists q = false) ∧
    cleanup true ((cleanup true v).1) = ((cleanup true v).1, false) := by
  have hcl : cleanup true v =
      ({ dirs := v.dirs,
         files := v.files.filter (fun e => cleanupTargets.all (fun q => e.1 != q)) },
        false) := by
    show cleanupLoop v cleanupTargets = _
    exact cleanupLoop_closed cleanupTargets v hnd
  have habs : ∀ q ∈ cleanupTargets, ((cleanup true v).1).pathExists q = false := by
    intro q hq
    rw [hcl]
    have h1 : v.dirs.contains q = false := hnd q hq
    have h2 : (v.files.filter (fun e => cleanupTargets.all (fun p => e.1 != p))).any
        (fun e => e.1 == q) = false := by
      cases hh : (v.files.filter (fun e => cleanupTargets.all (fun p => e.1 != p))).any
          (fun e => e.1 == q) with
      | false => rfl
      | true =>
        rcases List.any_eq_true.mp hh with ⟨e, he, heq⟩
        have hall : cleanupTargets.all (fun p => e.1 != p) = true :=
          (List.mem_filter.mp he).2
        have hne : (e.1 != q) = true := List.all_eq_true.mp hall q hq
        have heq2 : e.1 = q := by simpa using heq
        rw [heq2] at hne
        simp [bne] at hne
    show (VFS.pathExists _ q) = false
    unfold VFS.pathExists VFS.isFile
    rw [h2]
    show (v.dirs.contains q || false) = false
    rw [h1]
    rfl
  refine ⟨by rw [hcl], habs, ?_⟩
  show cleanupLoop ((cleanup true v).1) cleanupTargets = _
  exact cleanupLoop_absent cleanupTargets ((cleanup true v).1) habs

/-- C8 witness: a store with both transient files present as regular
files is cleaned without error and a second `cleanup` is a no-op. -/
theorem cleanup_amended_witness :
    (cleanup true vfsBothFiles).2 = false ∧
    cleanup true ((cleanup true vfsBothFiles).1) = ((cleanup true vfsBothFiles).1, false) :=
  ⟨(cleanup_amended vfsBothFiles (by decide)).1,
   (cleanup_amended vfsBothFiles (by decide)).2.2⟩

/-- C9: with the module present, `getCompiledAMX` never throws; before
any successful compile — nothing at the fixed output path — it returns
the explicit absence value `none` (never an empty buffer, never a
failure); once a binary is stored at the fixed output path it returns
exactly that binary; without the module it throws, per the documented
initialization precondition. -/
theorem getCompiledAMX_absence (v : VFS) :
    (¬(getCompiledAMX true v = Except.error ())) ∧
    (v.pathExists "/output.amx" = false → getCompiledAMX true v = Except.ok none) ∧
    (∀ pr : String × String, v.files.find? (fun e => e.1 == "/output.amx") = some pr →
      getCompiledAMX true v = Except.ok (some pr.2)) ∧
    getCompiledAMX false v = Except.error () := by
  refine ⟨?_, ?_, ?_, rfl⟩
  · intro h
    unfold getCompiledAMX at h
    by_cases hex : v.pathExists "/output.amx" = true
    · rw [if_neg (show ¬(!true) = true by simp),
        if_neg (show ¬(!v.pathExists "/output.amx") = true by rw [hex]; simp)] at h
      cases hF : v.readFile "/output.amx" with
      | ok d => rw [hF] at h; cases h
      | error e => rw [hF] at h; cases h
    · rw [Bool.not_eq_true] at hex
      rw [if_neg (show ¬(!true) = true by simp),
        if_pos (show (!v.pathExists "/output.amx") = true by rw [hex]; rfl)] at h
      cases h
  · intro hab
    unfold getCompiledAMX
    rw [if_neg (show ¬(!true) = true by simp),
      if_pos (show (!v.pathExists "/output.amx") = true by rw [hab]; rfl)]
  · intro pr hfind
    have hp := List.find?_some hfind
    have hmem : pr ∈ v.files := List.mem_of_find?_eq_some hfind
    have hisf : v.isFile "/output.amx" = true := by
      unfold VFS.isFile
      exact List.any_eq_true.mpr ⟨pr, hmem, hp⟩
    have hex : v.pathExists "/output.amx" = true := by
      simp only [VFS.pathExists, Bool.or_eq_true]
      exact Or.inr hisf
    unfold getCompiledAMX
    rw [if_neg (show ¬(!true) = true by simp),
      if_neg (show ¬(!v.pathExists "/output.amx") = true by rw [hex]; simp)]
    unfold VFS.readFile
    rw [hfind]

/-- C9 witness: a freshly initialized store yields the explicit absence
value, and a stored artifact is returned as written. -/
theorem getCompiledAMX_absence_witness :
    getCompiledAMX true vfsFresh = Except.ok none ∧
    getCompiledAMX true vfsWithArtifact = Except.ok (some "bin") :=
  ⟨(getCompiledAMX_absence vfsFresh).2.1 (by decide),
   (getCompiledAMX_absence vfsWithArtifact).2.2.1 ("/output.amx", "bin") (by decide)⟩

end PawnWasm
